import Mathlib

/-!
Verification of the in-memory user store and the user service of the
hanacaraka repository.

The embedding follows the Go source:
- `User` embeds `entities.User` (src/unnamed/part_004, `package entities`):
  three string fields `ID`, `Name`, `Email`, with `IsValid`, `UpdateName`,
  `UpdateEmail` and the constructors `NewUser` / `NewUserWithID`.
  `uuid.New().String()` is external nondeterminism, so `NewUser` takes the
  generated identifier as an explicit parameter.
- `MemoryUserRepository` embeds the store (src/unnamed/part_004,
  `package persistence`): a slice of users; `GetAll`, `GetByID`, `Create`,
  `Update`, `Delete` are state-passing functions returning the result
  together with the new store state.  The three linear scans of the Go
  loops are the structural recursions `findUser`, `updateUsers`,
  `deleteUsers` (first match wins, exactly as the loops do).
- `UserService` embeds src/application/services/user_service.go, with the
  repository state threaded explicitly.  Go error values are the three
  distinct messages the source produces, embedded as the inductive `Err`.
- Go's `GetAll` allocates a fresh backing array (`make` + `copy`); the
  aliasing content of that is modelled by a small slice-heap
  (`GoSliceHeap`) in which a slice value is an index into a list of
  backing arrays.
-/

/-- Embeds `entities.User`: `{ID, Name, Email string}`. -/
structure User where
  ID : String
  Name : String
  Email : String
deriving Repr, DecidableEq

/-- Embeds `User.IsValid`: `u.Name != "" && u.Email != ""`. -/
def User.IsValid (u : User) : Bool :=
  u.Name != "" && u.Email != ""

/-- Embeds `User.UpdateName`: `u.Name = name`. -/
def User.UpdateName (u : User) (name : String) : User :=
  { u with Name := name }

/-- Embeds `User.UpdateEmail`: `u.Email = email`. -/
def User.UpdateEmail (u : User) (email : String) : User :=
  { u with Email := email }

/-- Embeds `entities.NewUser`; the uuid produced by `uuid.New().String()`
is passed in as `genId` (id generation is external to the store). -/
def NewUser (genId name email : String) : User :=
  { ID := genId, Name := name, Email := email }

/-- Embeds `entities.NewUserWithID`. -/
def NewUserWithID (id name email : String) : User :=
  { ID := id, Name := name, Email := email }

/-- The three distinct error values produced by the Go sources:
`errors.New("user not found")` (store and service),
`errors.New("invalid user ID")` (service),
`errors.New("invalid user data: name and email are required")` (service). -/
inductive Err where
  | userNotFound
  | invalidUserID
  | invalidUserData
deriving Repr, DecidableEq

/-- The spec's NotFound condition: the "user not found" error. -/
def Err.isNotFound : Err → Bool
  | .userNotFound => true
  | _ => false

/-- The spec's ValidationError condition: an empty required field,
signalled by the service as "invalid user ID" or "invalid user data". -/
def Err.isValidationError : Err → Bool
  | .invalidUserID => true
  | .invalidUserData => true
  | .userNotFound => false

/-- Embeds `MemoryUserRepository`: the slice `users []*entities.User`
(the mutex only guards the slice and has no sequential content). -/
structure MemoryUserRepository where
  users : List User
deriving Repr, DecidableEq

/-- The loop of `MemoryUserRepository.GetByID`:
`for _, user := range r.users { if user.ID == id { return user, nil } }`. -/
def findUser : List User → String → Option User
  | [], _ => none
  | u :: rest, id => if u.ID == id then some u else findUser rest id

/-- The loop of `MemoryUserRepository.Update`: replace the first record
whose ID matches `user.ID`; `none` when no record matches. -/
def updateUsers : List User → User → Option (List User)
  | [], _ => none
  | u :: rest, user =>
    if u.ID == user.ID then some (user :: rest)
    else (updateUsers rest user).map (fun l => u :: l)

/-- The loop of `MemoryUserRepository.Delete`: remove the first record
whose ID matches (`append(r.users[:i], r.users[i+1:]...)`); `none` when
no record matches. -/
def deleteUsers : List User → String → Option (List User)
  | [], _ => none
  | u :: rest, id =>
    if u.ID == id then some rest
    else (deleteUsers rest id).map (fun l => u :: l)

/-- Embeds `MemoryUserRepository.GetAll`: returns a copy of the slice,
store unchanged (the copy's aliasing content is modelled by
`getAllAlloc` below). -/
def MemoryUserRepository.GetAll (r : MemoryUserRepository) :
    List User × MemoryUserRepository :=
  (r.users, r)

/-- Embeds `MemoryUserRepository.GetByID`. -/
def MemoryUserRepository.GetByID (r : MemoryUserRepository) (id : String) :
    Except Err User × MemoryUserRepository :=
  match findUser r.users id with
  | some u => (.ok u, r)
  | none => (.error .userNotFound, r)

/-- Embeds `MemoryUserRepository.Create`:
`r.users = append(r.users, user); return user, nil`. -/
def MemoryUserRepository.Create (r : MemoryUserRepository) (user : User) :
    Except Err User × MemoryUserRepository :=
  (.ok user, { users := r.users ++ [user] })

/-- Embeds `MemoryUserRepository.Update`. -/
def MemoryUserRepository.Update (r : MemoryUserRepository) (user : User) :
    Except Err User × MemoryUserRepository :=
  match updateUsers r.users user with
  | some l => (.ok user, { users := l })
  | none => (.error .userNotFound, r)

/-- Embeds `MemoryUserRepository.Delete`. -/
def MemoryUserRepository.Delete (r : MemoryUserRepository) (id : String) :
    Except Err Unit × MemoryUserRepository :=
  match deleteUsers r.users id with
  | some l => (.ok (), { users := l })
  | none => (.error .userNotFound, r)

/-- Embeds `UserService.GetAllUsers`: `return s.userRepo.GetAll()`. -/
def UserService.GetAllUsers (s : MemoryUserRepository) :
    List User × MemoryUserRepository :=
  s.GetAll

/-- Embeds `UserService.GetUserByID`. -/
def UserService.GetUserByID (s : MemoryUserRepository) (id : String) :
    Except Err User × MemoryUserRepository :=
  if id == "" then (.error .invalidUserID, s)
  else s.GetByID id

/-- Embeds `UserService.CreateUser`; `genId` is the uuid generated inside
`entities.NewUser`. -/
def UserService.CreateUser (s : MemoryUserRepository)
    (genId name email : String) :
    Except Err User × MemoryUserRepository :=
  let user := NewUser genId name email
  if !user.IsValid then (.error .invalidUserData, s)
  else s.Create user

/-- Embeds `UserService.UpdateUser`, including the validity re-check after
`UpdateName` / `UpdateEmail` (the second "invalid user data" branch).
In Go the fetched record is mutated through its pointer and then handed to
`Update`, which replaces the first record with the same (unchanged) ID —
observably the same as replacing the first match with the mutated value,
which is what this state-passing version does. -/
def UserService.UpdateUser (s : MemoryUserRepository)
    (id name email : String) :
    Except Err User × MemoryUserRepository :=
  if id == "" then (.error .invalidUserID, s)
  else if name == "" || email == "" then (.error .invalidUserData, s)
  else
    match s.GetByID id with
    | (.error e, s1) => (.error e, s1)
    | (.ok existingUser, s1) =>
      let u1 := (existingUser.UpdateName name).UpdateEmail email
      if !u1.IsValid then (.error .invalidUserData, s1)
      else s1.Update u1

/-- `UserService.UpdateUser` with the post-mutation validity re-check
removed; used to state that the re-check branch is unreachable. -/
def UserService.UpdateUserNoRecheck (s : MemoryUserRepository)
    (id name email : String) :
    Except Err User × MemoryUserRepository :=
  if id == "" then (.error .invalidUserID, s)
  else if name == "" || email == "" then (.error .invalidUserData, s)
  else
    match s.GetByID id with
    | (.error e, s1) => (.error e, s1)
    | (.ok existingUser, s1) =>
      s1.Update ((existingUser.UpdateName name).UpdateEmail email)

/-- Embeds `UserService.DeleteUser`. -/
def UserService.DeleteUser (s : MemoryUserRepository) (id : String) :
    Except Err Unit × MemoryUserRepository :=
  if id == "" then (.error .invalidUserID, s)
  else
    match s.GetByID id with
    | (.error e, s1) => (.error e, s1)
    | (.ok _, s1) => s1.Delete id

/-- A heap of Go slice backing arrays; a slice value is an index into it.
Models only what `GetAll` needs: `make` allocates a new backing array and
`copy` fills it, so writes through the returned slice cannot reach the
store's backing array. -/
abbrev GoSliceHeap := List (List User)

/-- Read a whole slice out of the heap. -/
def sliceRead (h : GoSliceHeap) (sid : Nat) : List User :=
  List.getD h sid []

/-- `slice[i] = u`: write one entry of the slice `sid` in place. -/
def sliceWrite (h : GoSliceHeap) (sid i : Nat) (u : User) : GoSliceHeap :=
  List.set h sid ((List.getD h sid []).set i u)

/-- `GetAll` at the heap level: `result := make([]*entities.User,
len(r.users)); copy(result, r.users); return result` — allocate a fresh
backing array holding the same elements and return its (fresh) slice id. -/
def getAllAlloc (h : GoSliceHeap) (ssid : Nat) : GoSliceHeap × Nat :=
  (h ++ [List.getD h ssid []], h.length)

/-- When no record matches the id, all three scans of the store come up
empty, exactly as the Go loops fall through to `errors.New("user not
found")`. -/
theorem scan_no_match (l : List User) (id : String)
    (h : ∀ u ∈ l, u.ID ≠ id) :
    findUser l id = none ∧
    (∀ user : User, user.ID = id → updateUsers l user = none) ∧
    deleteUsers l id = none := by
  induction l with
  | nil => simp [findUser, updateUsers, deleteUsers]
  | cons u rest ih =>
    have hu : u.ID ≠ id := h u (by simp)
    have hrest : ∀ v ∈ rest, v.ID ≠ id := fun v hv => h v (by simp [hv])
    obtain ⟨h1, h2, h3⟩ := ih hrest
    refine ⟨?_, ?_, ?_⟩
    · simp [findUser, hu, h1]
    · intro user hid
      have hne : (u.ID == user.ID) = false := by simp [hid, hu]
      simp [updateUsers, hne, h2 user hid]
    · simp [deleteUsers, hu, h3]

/-- Converse direction: a failed `GetByID` scan means no record matches. -/
theorem findUser_none_forall (l : List User) (id : String)
    (h : findUser l id = none) : ∀ u ∈ l, u.ID ≠ id := by
  induction l with
  | nil => intro u hu; simp at hu
  | cons u rest ih =>
    by_cases hu : u.ID = id
    · simp [findUser, hu] at h
    · intro v hv
      rcases List.mem_cons.mp hv with rfl | hv
      · exact hu
      · exact ih (by simpa [findUser, hu] using h) v hv

/-- When some record matches the id there is a unique first-match index,
and all three Go loops act there: `GetByID` returns that record, `Update`
replaces it in place, `Delete` removes it by shifting the tail left. -/
theorem scan_first_match (l : List User) (id : String)
    (h : ∃ u ∈ l, u.ID = id) :
    ∃ (k : Nat) (w : User),
      k < l.length ∧
      l[k]? = some w ∧ w.ID = id ∧
      (∀ m v, m < k → l[m]? = some v → v.ID ≠ id) ∧
      findUser l id = some w ∧
      (∀ user : User, user.ID = id →
        updateUsers l user = some (l.set k user)) ∧
      deleteUsers l id = some (l.take k ++ l.drop (k + 1)) := by
  induction l with
  | nil => simp at h
  | cons u rest ih =>
    by_cases hu : u.ID = id
    · refine ⟨0, u, by simp, by simp, hu, ?_, by simp [findUser, hu], ?_, ?_⟩
      · intro m v hm; omega
      · intro user hid
        have huu : (u.ID == user.ID) = true := by simp [hid, hu]
        simp [updateUsers, huu]
      · simp [deleteUsers, hu]
    · have hrest : ∃ v ∈ rest, v.ID = id := by
        rcases h with ⟨v, hv, hvid⟩
        rcases List.mem_cons.mp hv with rfl | hv
        · exact absurd hvid hu
        · exact ⟨v, hv, hvid⟩
      obtain ⟨k, w, hk, hkw, hwid, hfirst, hfind, hupd, hdel⟩ := ih hrest
      refine ⟨k + 1, w, by simpa using hk, by simpa using hkw, hwid,
        ?_, ?_, ?_, ?_⟩
      · intro m v hm hmv
        match m with
        | 0 =>
          simp only [List.getElem?_cons_zero, Option.some_inj] at hmv
          subst hmv; exact hu
        | m + 1 =>
          exact hfirst m v (by omega) (by simpa using hmv)
      · simp [findUser, hu, hfind]
      · intro user hid
        have hne : (u.ID == user.ID) = false := by simp [hid, hu]
        simp [updateUsers, hne, hupd user hid, List.set]
      · simp [deleteUsers, hu, hdel, List.take, List.drop]

/-- C1: for every id matching no record in the collection — the
empty-string id included — the store's `GetByID`, `Update` and `Delete`
all return the NotFound error (the only error the store produces) and
leave the store unchanged. -/
theorem store_absent_id_not_found (r : MemoryUserRepository) (id : String)
    (h : ∀ u ∈ r.users, u.ID ≠ id) :
    r.GetByID id = (.error .userNotFound, r) ∧
    (∀ user : User, user.ID = id →
      r.Update user = (.error .userNotFound, r)) ∧
    r.Delete id = (.error .userNotFound, r) ∧
    Err.userNotFound.isNotFound = true := by
  obtain ⟨h1, h2, h3⟩ := scan_no_match r.users id h
  refine ⟨?_, ?_, ?_, rfl⟩
  · simp [MemoryUserRepository.GetByID, h1]
  · intro user hid
    simp [MemoryUserRepository.Update, h2 user hid]
  · simp [MemoryUserRepository.Delete, h3]

/-- C1 witness: the empty-string id on a store holding one record. -/
theorem store_absent_id_not_found_witness :
    (∀ u ∈ ({ users := [⟨"a", "Alice", "al@x"⟩] } :
        MemoryUserRepository).users, u.ID ≠ "") ∧
    ({ users := [⟨"a", "Alice", "al@x"⟩] } :
        MemoryUserRepository).GetByID "" =
      (.error .userNotFound, { users := [⟨"a", "Alice", "al@x"⟩] }) ∧
    ({ users := [⟨"a", "Alice", "al@x"⟩] } :
        MemoryUserRepository).Delete "" =
      (.error .userNotFound, { users := [⟨"a", "Alice", "al@x"⟩] }) := by
  have h : ∀ u ∈ ({ users := [⟨"a", "Alice", "al@x"⟩] } :
      MemoryUserRepository).users, u.ID ≠ "" := by decide
  obtain ⟨h1, _, h3, _⟩ :=
    store_absent_id_not_found { users := [⟨"a", "Alice", "al@x"⟩] } "" h
  exact ⟨h, h1, h3⟩

/-- C2: the service raises a ValidationError and leaves the store
untouched on every get/update/delete call with an empty id and on every
create/update call with an empty name or email; both service error values
are ValidationErrors. -/
theorem service_validation_before_store (s : MemoryUserRepository)
    (genId id name email : String) :
    (id = "" →
      UserService.GetUserByID s id = (.error .invalidUserID, s) ∧
      UserService.DeleteUser s id = (.error .invalidUserID, s)) ∧
    (name = "" ∨ email = "" →
      UserService.CreateUser s genId name email =
        (.error .invalidUserData, s)) ∧
    (id = "" ∨ name = "" ∨ email = "" →
      ∃ e, UserService.UpdateUser s id name email = (.error e, s) ∧
        e.isValidationError = true) ∧
    Err.invalidUserID.isValidationError = true ∧
    Err.invalidUserData.isValidationError = true := by
  refine ⟨?_, ?_, ?_, rfl, rfl⟩
  · rintro rfl
    exact ⟨rfl, rfl⟩
  · intro hne
    have hval : (NewUser genId name email).IsValid = false := by
      rcases hne with h | h <;> simp [NewUser, User.IsValid, h]
    simp [UserService.CreateUser, hval]
  · intro h
    by_cases hid : id = ""
    · subst hid
      exact ⟨.invalidUserID, rfl, rfl⟩
    · have hne : name = "" ∨ email = "" := by tauto
      refine ⟨.invalidUserData, ?_, rfl⟩
      have h1 : (id == "") = false := by simp [hid]
      have h2 : (name == "" || email == "") = true := by
        rcases hne with h | h <;> simp [h]
      simp [UserService.UpdateUser, h1, h2]

/-- C2 witness: empty id on get/delete/update, empty email on create. -/
theorem service_validation_before_store_witness :
    UserService.GetUserByID { users := [] } "" =
      (.error .invalidUserID, { users := [] }) ∧
    UserService.DeleteUser { users := [] } "" =
      (.error .invalidUserID, { users := [] }) ∧
    UserService.CreateUser { users := [] } "g1" "Alice" "" =
      (.error .invalidUserData, { users := [] }) ∧
    (∃ e, UserService.UpdateUser { users := [] } "x" "" "al@x" =
      (.error e, { users := [] }) ∧ e.isValidationError = true) := by
  obtain ⟨hid, hcr, hup, -, -⟩ :=
    service_validation_before_store { users := [] } "g1" "" "Alice" ""
  obtain ⟨h1, h2⟩ := hid rfl
  refine ⟨h1, h2, hcr (Or.inr rfl), ?_⟩
  obtain ⟨-, -, hup2, -, -⟩ :=
    service_validation_before_store { users := [] } "g1" "x" "" "al@x"
  exact hup2 (Or.inr (Or.inl rfl))

/-- C3: when some record matches `user.ID`, the store's `Update` replaces
the first matching record at its index, keeps the length, and leaves every
other position untouched; when no record matches it returns NotFound and
leaves the store unchanged. -/
theorem store_update_replaces_first_match
    (r : MemoryUserRepository) (user : User) :
    ((∃ u ∈ r.users, u.ID = user.ID) →
      ∃ k w, k < r.users.length ∧
        r.users[k]? = some w ∧ w.ID = user.ID ∧
        (∀ m v, m < k → r.users[m]? = some v → v.ID ≠ user.ID) ∧
        r.Update user = (.ok user, { users := r.users.set k user }) ∧
        (r.users.set k user).length = r.users.length ∧
        (r.users.set k user)[k]? = some user ∧
        (∀ m, m ≠ k → (r.users.set k user)[m]? = r.users[m]?)) ∧
    ((∀ u ∈ r.users, u.ID ≠ user.ID) →
      r.Update user = (.error .userNotFound, r)) := by
  constructor
  · intro h
    obtain ⟨k, w, hk, hkw, hwid, hfirst, -, hupd, -⟩ :=
      scan_first_match r.users user.ID h
    refine ⟨k, w, hk, hkw, hwid, hfirst, ?_, by simp, ?_, ?_⟩
    · simp [MemoryUserRepository.Update, hupd user rfl]
    · exact List.getElem?_set_eq_of_lt user (by simpa using hk)
    · intro m hm
      exact List.getElem?_set_ne (Ne.symm hm)
  · intro h
    obtain ⟨-, h2, -⟩ := scan_no_match r.users user.ID h
    simp [MemoryUserRepository.Update, h2 user rfl]

/-- C3 witness: replacing the first of two duplicate-id records in a
three-record store, and NotFound on an absent id. -/
theorem store_update_replaces_first_match_witness :
    (∃ u ∈ ({ users := [⟨"a", "Alice", "al@x"⟩, ⟨"b", "Bob", "bo@x"⟩] } :
        MemoryUserRepository).users, u.ID = "a") ∧
    (∃ k w, k < 2 ∧
      ([⟨"a", "Alice", "al@x"⟩, ⟨"b", "Bob", "bo@x"⟩] :
        List User)[k]? = some w ∧ w.ID = "a" ∧
      (∀ m v, m < k →
        ([⟨"a", "Alice", "al@x"⟩, ⟨"b", "Bob", "bo@x"⟩] :
          List User)[m]? = some v → v.ID ≠ "a") ∧
      ({ users := [⟨"a", "Alice", "al@x"⟩, ⟨"b", "Bob", "bo@x"⟩] } :
        MemoryUserRepository).Update ⟨"a", "Ann", "an@x"⟩ =
        (.ok ⟨"a", "Ann", "an@x"⟩,
         { users := ([⟨"a", "Alice", "al@x"⟩, ⟨"b", "Bob", "bo@x"⟩] :
             List User).set k ⟨"a", "Ann", "an@x"⟩ })) := by
  have h : ∃ u ∈ ({ users := [⟨"a", "Alice", "al@x"⟩, ⟨"b", "Bob", "bo@x"⟩] } :
      MemoryUserRepository).users, u.ID = "a" :=
    ⟨⟨"a", "Alice", "al@x"⟩, by simp, rfl⟩
  obtain ⟨hsome, -⟩ := store_update_replaces_first_match
    { users := [⟨"a", "Alice", "al@x"⟩, ⟨"b", "Bob", "bo@x"⟩] }
    ⟨"a", "Ann", "an@x"⟩
  obtain ⟨k, w, hk, hkw, hwid, hfirst, hupd, -, -, -⟩ := hsome h
  exact ⟨h, k, w, hk, hkw, hwid, hfirst, hupd⟩

/-- C4: when some record matches the id, the store's `Delete` removes the
first matching record, keeps the earlier records in place, shifts the
later ones left by one (preserving their relative order), and shrinks the
length by exactly one; when no record matches it returns NotFound and
leaves the store unchanged. -/
theorem store_delete_removes_first_match
    (r : MemoryUserRepository) (id : String) :
    ((∃ u ∈ r.users, u.ID = id) →
      ∃ k w, k < r.users.length ∧
        r.users[k]? = some w ∧ w.ID = id ∧
        (∀ m v, m < k → r.users[m]? = some v → v.ID ≠ id) ∧
        r.Delete id =
          (.ok (), { users := r.users.take k ++ r.users.drop (k + 1) }) ∧
        (r.users.take k ++ r.users.drop (k + 1)).length =
          r.users.length - 1 ∧
        (∀ m, m < k →
          (r.users.take k ++ r.users.drop (k + 1))[m]? = r.users[m]?) ∧
        (∀ m, k ≤ m →
          (r.users.take k ++ r.users.drop (k + 1))[m]? =
            r.users[m + 1]?)) ∧
    ((∀ u ∈ r.users, u.ID ≠ id) →
      r.Delete id = (.error .userNotFound, r)) := by
  constructor
  · intro h
    obtain ⟨k, w, hk, hkw, hwid, hfirst, -, -, hdel⟩ :=
      scan_first_match r.users id h
    have htl : (List.take k r.users).length = k := by
      rw [List.length_take]; omega
    refine ⟨k, w, hk, hkw, hwid, hfirst, ?_, ?_, ?_, ?_⟩
    · simp [MemoryUserRepository.Delete, hdel]
    · rw [List.length_append, htl, List.length_drop]; omega
    · intro m hm
      rw [List.getElem?_append, htl, if_pos hm, List.getElem?_take,
        if_pos hm]
    · intro m hm
      rw [List.getElem?_append, htl, if_neg (by omega),
        List.getElem?_drop]
      congr 1
      omega
  · intro h
    obtain ⟨-, -, h3⟩ := scan_no_match r.users id h
    simp [MemoryUserRepository.Delete, h3]

/-- C4 witness: deleting the middle record of a three-record store, and
NotFound on an absent id. -/
theorem store_delete_removes_first_match_witness :
    (∃ u ∈ ({ users := [⟨"a", "Alice", "al@x"⟩, ⟨"b", "Bob", "bo@x"⟩,
        ⟨"c", "Cleo", "cl@x"⟩] } : MemoryUserRepository).users,
      u.ID = "b") ∧
    (∃ (k : Nat) (w : User), k < 3 ∧
      ({ users := [⟨"a", "Alice", "al@x"⟩, ⟨"b", "Bob", "bo@x"⟩,
          ⟨"c", "Cleo", "cl@x"⟩] } : MemoryUserRepository).Delete "b" =
        (.ok (), { users :=
          ([⟨"a", "Alice", "al@x"⟩, ⟨"b", "Bob", "bo@x"⟩,
            ⟨"c", "Cleo", "cl@x"⟩] : List User).take k ++
          ([⟨"a", "Alice", "al@x"⟩, ⟨"b", "Bob", "bo@x"⟩,
            ⟨"c", "Cleo", "cl@x"⟩] : List User).drop (k + 1) }) ∧
      w.ID = "b") := by
  have h : ∃ u ∈ ({ users := [⟨"a", "Alice", "al@x"⟩, ⟨"b", "Bob", "bo@x"⟩,
      ⟨"c", "Cleo", "cl@x"⟩] } : MemoryUserRepository).users, u.ID = "b" :=
    ⟨⟨"b", "Bob", "bo@x"⟩, by simp, rfl⟩
  obtain ⟨hsome, -⟩ := store_delete_removes_first_match
    { users := [⟨"a", "Alice", "al@x"⟩, ⟨"b", "Bob", "bo@x"⟩,
      ⟨"c", "Cleo", "cl@x"⟩] } "b"
  obtain ⟨k, w, hk, -, hwid, -, hdel, -, -, -⟩ := hsome h
  exact ⟨h, k, w, hk, hdel, hwid⟩

/-- C5: the store's `Create` never fails: for every store state and every
record — a record whose id already occurs in the collection included — it
appends the record at the end, growing the length by exactly one, with
all existing records untouched. -/
theorem store_create_appends (r : MemoryUserRepository) (user : User) :
    r.Create user = (.ok user, { users := r.users ++ [user] }) ∧
    (r.users ++ [user]).length = r.users.length + 1 ∧
    (r.users ++ [user])[r.users.length]? = some user ∧
    (∀ m, m < r.users.length → (r.users ++ [user])[m]? = r.users[m]?) ∧
    ((∃ u ∈ r.users, u.ID = user.ID) →
      r.Create user = (.ok user, { users := r.users ++ [user] })) := by
  refine ⟨rfl, by simp, List.getElem?_concat_length r.users user,
    ?_, fun _ => rfl⟩
  intro m hm
  rw [List.getElem?_append, if_pos hm]

/-- C5 witness: appending a record whose id duplicates an existing one. -/
theorem store_create_appends_witness :
    (∃ u ∈ ({ users := [⟨"a", "Alice", "al@x"⟩] } :
        MemoryUserRepository).users, u.ID = "a") ∧
    ({ users := [⟨"a", "Alice", "al@x"⟩] } :
        MemoryUserRepository).Create ⟨"a", "Ann", "an@x"⟩ =
      (.ok ⟨"a", "Ann", "an@x"⟩,
       { users := [⟨"a", "Alice", "al@x"⟩, ⟨"a", "Ann", "an@x"⟩] }) := by
  have h : ∃ u ∈ ({ users := [⟨"a", "Alice", "al@x"⟩] } :
      MemoryUserRepository).users, u.ID = "a" :=
    ⟨⟨"a", "Alice", "al@x"⟩, by simp, rfl⟩
  obtain ⟨-, -, -, -, hdup⟩ := store_create_appends
    { users := [⟨"a", "Alice", "al@x"⟩] } ⟨"a", "Ann", "an@x"⟩
  exact ⟨h, hdup h⟩

/-- C6: `GetAll` never fails, returns the whole collection in insertion
order and leaves the store unchanged; at the slice-heap level the returned
slice is a fresh backing array holding the same elements, so writing an
entry of the returned slice leaves the store's slice unchanged. -/
theorem getall_snapshot (r : MemoryUserRepository) (h : GoSliceHeap)
    (ssid : Nat) (hs : ssid < h.length) :
    r.GetAll = (r.users, r) ∧
    sliceRead (getAllAlloc h ssid).1 (getAllAlloc h ssid).2 =
      sliceRead h ssid ∧
    (∀ i u, sliceRead
        (sliceWrite (getAllAlloc h ssid).1 (getAllAlloc h ssid).2 i u)
        ssid = sliceRead h ssid) := by
  refine ⟨rfl, ?_, ?_⟩
  · simp only [getAllAlloc, sliceRead]
    rw [List.getD_eq_getElem?_getD, List.getElem?_concat_length]
    rfl
  · intro i u
    simp only [getAllAlloc, sliceRead, sliceWrite]
    rw [List.getD_eq_getElem?_getD, List.getElem?_set_ne (by omega),
      List.getElem?_append, if_pos hs, List.getD_eq_getElem?_getD]

/-- C6 witness: a one-slice heap; overwriting entry 0 of the snapshot
leaves the store's slice intact. -/
theorem getall_snapshot_witness :
    0 < ([[⟨"a", "Alice", "al@x"⟩]] : GoSliceHeap).length ∧
    ({ users := [⟨"a", "Alice", "al@x"⟩] } :
        MemoryUserRepository).GetAll =
      ([⟨"a", "Alice", "al@x"⟩],
       { users := [⟨"a", "Alice", "al@x"⟩] }) ∧
    sliceRead (getAllAlloc [[⟨"a", "Alice", "al@x"⟩]] 0).1
        (getAllAlloc [[⟨"a", "Alice", "al@x"⟩]] 0).2 =
      sliceRead [[⟨"a", "Alice", "al@x"⟩]] 0 ∧
    sliceRead (sliceWrite (getAllAlloc [[⟨"a", "Alice", "al@x"⟩]] 0).1
        (getAllAlloc [[⟨"a", "Alice", "al@x"⟩]] 0).2 0
        ⟨"b", "Bob", "bo@x"⟩) 0 =
      sliceRead [[⟨"a", "Alice", "al@x"⟩]] 0 := by
  have h0 : (0 : Nat) < ([[⟨"a", "Alice", "al@x"⟩]] : GoSliceHeap).length :=
    by simp
  obtain ⟨h1, h2, h3⟩ := getall_snapshot
    { users := [⟨"a", "Alice", "al@x"⟩] } [[⟨"a", "Alice", "al@x"⟩]] 0 h0
  exact ⟨h0, h1, h2, h3 0 ⟨"b", "Bob", "bo@x"⟩⟩

/-- A fresh id appended at the end is what the `GetByID` scan finds when
nothing before it matches. -/
theorem findUser_append_fresh (l : List User) (u : User) (id : String)
    (h : ∀ v ∈ l, v.ID ≠ id) (hu : u.ID = id) :
    findUser (l ++ [u]) id = some u := by
  induction l with
  | nil => simp [findUser, hu]
  | cons v rest ih =>
    have hv : v.ID ≠ id := h v (by simp)
    simp [findUser, hv, ih (fun w hw => h w (by simp [hw]))]

/-- C7: for a valid input (non-empty name and email) and a generated id
that is fresh for the store (the id generator's uniqueness contract, §6 of
the spec), `CreateUser` appends exactly the new record and a subsequent
`GetByID` with the created id returns a record equal to the created one in
all fields. -/
theorem create_then_get_roundtrip (r : MemoryUserRepository)
    (genId name email : String)
    (hname : name ≠ "") (hemail : email ≠ "")
    (hfresh : ∀ u ∈ r.users, u.ID ≠ genId) :
    UserService.CreateUser r genId name email =
      (.ok (NewUser genId name email),
       { users := r.users ++ [NewUser genId name email] }) ∧
    MemoryUserRepository.GetByID
        { users := r.users ++ [NewUser genId name email] } genId =
      (.ok (NewUser genId name email),
       { users := r.users ++ [NewUser genId name email] }) := by
  have hval : (NewUser genId name email).IsValid = true := by
    simp [NewUser, User.IsValid, hname, hemail]
  constructor
  · simp [UserService.CreateUser, hval, MemoryUserRepository.Create]
  · have hfind := findUser_append_fresh r.users (NewUser genId name email)
      genId hfresh rfl
    simp [MemoryUserRepository.GetByID, hfind]

/-- C7 witness: creating "Bob" with fresh id "g1" over a one-record store
and reading it back. -/
theorem create_then_get_roundtrip_witness :
    ("Bob" : String) ≠ "" ∧ ("bo@x" : String) ≠ "" ∧
    (∀ u ∈ ({ users := [⟨"a", "Alice", "al@x"⟩] } :
        MemoryUserRepository).users, u.ID ≠ "g1") ∧
    UserService.CreateUser { users := [⟨"a", "Alice", "al@x"⟩] }
        "g1" "Bob" "bo@x" =
      (.ok (NewUser "g1" "Bob" "bo@x"),
       { users := [⟨"a", "Alice", "al@x"⟩] ++ [NewUser "g1" "Bob" "bo@x"] }) ∧
    MemoryUserRepository.GetByID
        { users := [⟨"a", "Alice", "al@x"⟩] ++ [NewUser "g1" "Bob" "bo@x"] }
        "g1" =
      (.ok (NewUser "g1" "Bob" "bo@x"),
       { users := [⟨"a", "Alice", "al@x"⟩] ++ [NewUser "g1" "Bob" "bo@x"] }) := by
  have hn : ("Bob" : String) ≠ "" := by decide
  have he : ("bo@x" : String) ≠ "" := by decide
  have hf : ∀ u ∈ ({ users := [⟨"a", "Alice", "al@x"⟩] } :
      MemoryUserRepository).users, u.ID ≠ "g1" := by decide
  obtain ⟨h1, h2⟩ := create_then_get_roundtrip
    { users := [⟨"a", "Alice", "al@x"⟩] } "g1" "Bob" "bo@x" hn he hf
  exact ⟨hn, he, hf, h1, h2⟩

/-- C8: when two records share an id, `GetByID` returns the record at the
lowest matching index, `Update` replaces only that record (the later
duplicate keeps its position and value), and `Delete` removes only that
record (the later duplicate survives, shifted left by one). -/
theorem duplicate_ids_first_match_wins (r : MemoryUserRepository)
    (i j : Nat) (ui uj : User) (tid : String)
    (hij : i < j)
    (hi : r.users[i]? = some ui) (hj : r.users[j]? = some uj)
    (hui : ui.ID = tid) (_huj : uj.ID = tid) :
    ∃ (k : Nat) (w : User),
      k < r.users.length ∧ k ≤ i ∧
      r.users[k]? = some w ∧ w.ID = tid ∧
      (∀ m v, m < k → r.users[m]? = some v → v.ID ≠ tid) ∧
      r.GetByID tid = (.ok w, r) ∧
      (∀ user : User, user.ID = tid →
        r.Update user = (.ok user, { users := r.users.set k user }) ∧
        (r.users.set k user)[j]? = some uj) ∧
      r.Delete tid =
        (.ok (), { users := r.users.take k ++ r.users.drop (k + 1) }) ∧
      (r.users.take k ++ r.users.drop (k + 1))[j - 1]? = some uj := by
  have hmem : ∃ u ∈ r.users, u.ID = tid := by
    obtain ⟨hlen, rfl⟩ := List.getElem?_eq_some.mp hi
    exact ⟨_, List.getElem_mem hlen, hui⟩
  obtain ⟨k, w, hk, hkw, hwid, hfirst, hfind, hupd, hdel⟩ :=
    scan_first_match r.users tid hmem
  have hki : k ≤ i := by
    by_contra hik
    exact hfirst i ui (by omega) hi hui
  have htl : (List.take k r.users).length = k := by
    rw [List.length_take]; omega
  refine ⟨k, w, hk, hki, hkw, hwid, hfirst, ?_, ?_, ?_, ?_⟩
  · simp [MemoryUserRepository.GetByID, hfind]
  · intro user hid
    refine ⟨by simp [MemoryUserRepository.Update, hupd user hid], ?_⟩
    rw [List.getElem?_set_ne (by omega)]
    exact hj
  · simp [MemoryUserRepository.Delete, hdel]
  · rw [List.getElem?_append, htl, if_neg (by omega), List.getElem?_drop]
    rw [show k + 1 + (j - 1 - k) = j by omega]
    exact hj

/-- C8 witness: two records with id "a"; get returns the first, update
rewrites only position 0, delete removes only position 0. -/
theorem duplicate_ids_first_match_wins_witness :
    (([⟨"a", "Alice", "al@x"⟩, ⟨"a", "Ann", "an@x"⟩] :
        List User)[0]? = some ⟨"a", "Alice", "al@x"⟩) ∧
    (([⟨"a", "Alice", "al@x"⟩, ⟨"a", "Ann", "an@x"⟩] :
        List User)[1]? = some ⟨"a", "Ann", "an@x"⟩) ∧
    (∃ (k : Nat) (w : User), k ≤ 0 ∧ w.ID = "a" ∧
      ({ users := [⟨"a", "Alice", "al@x"⟩, ⟨"a", "Ann", "an@x"⟩] } :
          MemoryUserRepository).GetByID "a" =
        (.ok w, { users := [⟨"a", "Alice", "al@x"⟩, ⟨"a", "Ann", "an@x"⟩] }) ∧
      ({ users := [⟨"a", "Alice", "al@x"⟩, ⟨"a", "Ann", "an@x"⟩] } :
          MemoryUserRepository).Update ⟨"a", "New", "ne@x"⟩ =
        (.ok ⟨"a", "New", "ne@x"⟩,
         { users := ([⟨"a", "Alice", "al@x"⟩, ⟨"a", "Ann", "an@x"⟩] :
             List User).set k ⟨"a", "New", "ne@x"⟩ }) ∧
      (([⟨"a", "Alice", "al@x"⟩, ⟨"a", "Ann", "an@x"⟩] :
          List User).set k ⟨"a", "New", "ne@x"⟩)[1]? =
        some ⟨"a", "Ann", "an@x"⟩ ∧
      ({ users := [⟨"a", "Alice", "al@x"⟩, ⟨"a", "Ann", "an@x"⟩] } :
          MemoryUserRepository).Delete "a" =
        (.ok (), { users :=
          ([⟨"a", "Alice", "al@x"⟩, ⟨"a", "Ann", "an@x"⟩] :
            List User).take k ++
          ([⟨"a", "Alice", "al@x"⟩, ⟨"a", "Ann", "an@x"⟩] :
            List User).drop (k + 1) }) ∧
      (([⟨"a", "Alice", "al@x"⟩, ⟨"a", "Ann", "an@x"⟩] :
          List User).take k ++
        ([⟨"a", "Alice", "al@x"⟩, ⟨"a", "Ann", "an@x"⟩] :
          List User).drop (k + 1))[0]? = some ⟨"a", "Ann", "an@x"⟩) := by
  have h0 : (([⟨"a", "Alice", "al@x"⟩, ⟨"a", "Ann", "an@x"⟩] :
      List User)[0]? = some ⟨"a", "Alice", "al@x"⟩) := rfl
  have h1 : (([⟨"a", "Alice", "al@x"⟩, ⟨"a", "Ann", "an@x"⟩] :
      List User)[1]? = some ⟨"a", "Ann", "an@x"⟩) := rfl
  obtain ⟨k, w, -, hki, -, hwid, -, hget, hupd, hdel, hshift⟩ :=
    duplicate_ids_first_match_wins
      { users := [⟨"a", "Alice", "al@x"⟩, ⟨"a", "Ann", "an@x"⟩] }
      0 1 ⟨"a", "Alice", "al@x"⟩ ⟨"a", "Ann", "an@x"⟩ "a"
      (by omega) h0 h1 rfl rfl
  obtain ⟨hu1, hu2⟩ := hupd ⟨"a", "New", "ne@x"⟩ rfl
  exact ⟨h0, h1, k, w, hki, hwid, hget, hu1, hu2, hdel, hshift⟩

/-- C9: the validity re-check in `UpdateUser` after `UpdateName` /
`UpdateEmail` can never fail once the empty-name / empty-email check has
passed: `UpdateUser` coincides with the variant that has the re-check
branch removed, on every store state and input, so the second
"invalid user data" branch is unreachable. -/
theorem update_recheck_unreachable (s : MemoryUserRepository)
    (id name email : String) :
    UserService.UpdateUser s id name email =
      UserService.UpdateUserNoRecheck s id name email := by
  unfold UserService.UpdateUser UserService.UpdateUserNoRecheck
  by_cases hid : id = ""
  · simp [hid]
  · by_cases hname : name = ""
    · simp [hid, hname]
    · by_cases hemail : email = ""
      · simp [hid, hname, hemail]
      · have hval : ∀ u : User,
            ((u.UpdateName name).UpdateEmail email).IsValid = true := by
          intro u
          simp [User.UpdateName, User.UpdateEmail, User.IsValid,
            hname, hemail]
        rcases hget : s.GetByID id with ⟨res, s1⟩
        rcases res with e | u
        · simp [hid, hname, hemail, hget]
        · simp [hid, hname, hemail, hget, hval u]

/-- C10: for every non-empty id, the service's `DeleteUser` is the store's
`Delete`: identical result and identical final store; in particular it
succeeds exactly when a record with the id is present and reports
NotFound otherwise. -/
theorem service_delete_refines_store_delete (s : MemoryUserRepository)
    (id : String) (hid : id ≠ "") :
    UserService.DeleteUser s id = s.Delete id ∧
    ((∃ u ∈ s.users, u.ID = id) →
      ∃ r1, UserService.DeleteUser s id = (.ok (), r1)) ∧
    ((∀ u ∈ s.users, u.ID ≠ id) →
      UserService.DeleteUser s id = (.error .userNotFound, s)) := by
  have heq : UserService.DeleteUser s id = s.Delete id := by
    unfold UserService.DeleteUser
    rw [if_neg (by simp [hid])]
    rcases hf : findUser s.users id with _ | u
    · have hall := findUser_none_forall s.users id hf
      obtain ⟨-, -, h3⟩ := scan_no_match s.users id hall
      simp [MemoryUserRepository.GetByID, hf,
        MemoryUserRepository.Delete, h3]
    · simp [MemoryUserRepository.GetByID, hf]
  refine ⟨heq, ?_, ?_⟩
  · intro h
    obtain ⟨k, w, -, -, -, -, -, -, hdel⟩ := scan_first_match s.users id h
    refine ⟨{ users := List.take k s.users ++ List.drop (k + 1) s.users }, ?_⟩
    rw [heq]
    simp [MemoryUserRepository.Delete, hdel]
  · intro h
    obtain ⟨-, -, h3⟩ := scan_no_match s.users id h
    rw [heq]
    simp [MemoryUserRepository.Delete, h3]

/-- C10 witness: deleting id "a" through the service and directly through
the store from the same one-record state gives identical outcomes. -/
theorem service_delete_refines_store_delete_witness :
    ("a" : String) ≠ "" ∧
    UserService.DeleteUser { users := [⟨"a", "Alice", "al@x"⟩] } "a" =
      ({ users := [⟨"a", "Alice", "al@x"⟩] } :
        MemoryUserRepository).Delete "a" ∧
    UserService.DeleteUser { users := [⟨"a", "Alice", "al@x"⟩] } "a" =
      (.ok (), { users := [] }) := by
  have ha : ("a" : String) ≠ "" := by decide
  obtain ⟨heq, -, -⟩ := service_delete_refines_store_delete
    { users := [⟨"a", "Alice", "al@x"⟩] } "a" ha
  exact ⟨ha, heq, by rw [heq]; rfl⟩
